import Mathlib

/-!
Shallow embedding of `noaa_data_fetch.py` (NOAA space-weather fetch script):
the retrying HTTP client, the three-strategy latest-file resolver
(`get_latest_file_url`), the fetch orchestrator (`fetch_noaa_data`), and the
retention sweep (`cleanup_old_files`).

Network modelling: a `World` assigns to every URL a finite stream of
responses; the n-th request to a URL (GET or HEAD alike) receives the n-th
element of that stream, and a position past the end of the stream models a
connection error / timeout (a raised `requests` exception).  A `NetState`
tracks, per URL, how many responses have been consumed, together with the
ordered trace of all requests issued.  A response carries the HTTP status,
the result of `response.json()` (`none` models a body that fails to parse),
and the list of regex matches that `re.findall` would produce on
`response.text` (used only by the manual-listing strategy).
-/

inductive Method where
  | GET
  | HEAD
deriving DecidableEq, Repr

structure Req where
  method : Method
  url : String
deriving DecidableEq, Repr

structure FileEntry where
  filename : String
  timestamp : Int
deriving DecidableEq, Repr

/-- Parsed JSON bodies, as far as the script inspects them: either an object
carrying a `files` listing (what the index strategy reads) or some other
document, identified abstractly by a tag. -/
inductive JsonDoc where
  | filesListing : List FileEntry → JsonDoc
  | doc : Nat → JsonDoc
deriving DecidableEq, Repr

structure Response where
  status : Nat
  body : Option JsonDoc
  textMatches : List String
deriving DecidableEq, Repr

structure World where
  responses : String → List Response

structure NetState where
  counts : String → Nat
  trace : List Req

def NetState.init : NetState := ⟨fun _ => 0, []⟩

/-- The network state after one request to `url`: its consumption counter
bumped and the request recorded. -/
def bumpState (s : NetState) (m : Method) (url : String) : NetState :=
  ⟨fun u => if u = url then s.counts u + 1 else s.counts u, s.trace ++ [⟨m, url⟩]⟩

/-- One raw HTTP request (no retries): consume the next response from the
URL's stream, bump the consumption counter and record the request. -/
def plainRequest (w : World) (m : Method) (url : String) (s : NetState) :
    Option Response × NetState :=
  ((w.responses url)[s.counts url]?, bumpState s m url)

/-- `Retry(total=5, backoff_factor=1, status_forcelist=[429, 500, 502, 503, 504])`. -/
def statusForcelist : List Nat := [429, 500, 502, 503, 504]

/-- The retrying session GET: up to `fuel` raw requests; a connection error
or a status in the forcelist consumes a retry, anything else is returned.
Exhaustion models the `MaxRetryError` the adapter raises (a
`RequestException` for the caller). -/
def retryingGetAux (w : World) (url : String) : Nat → NetState → Option Response × NetState
  | 0, s => (none, s)
  | fuel + 1, s =>
    match plainRequest w Method.GET url s with
    | (none, s') => retryingGetAux w url fuel s'
    | (some resp, s') =>
      if resp.status ∈ statusForcelist then retryingGetAux w url fuel s'
      else (some resp, s')

/-- `session.get` through the adapter mounted with `Retry(total=5, ...)`:
one initial attempt plus at most five retries. -/
def retryingGet (w : World) (url : String) (s : NetState) : Option Response × NetState :=
  retryingGetAux w url 6 s

def NOAA_BASE_URL : String := "https://services.swpc.noaa.gov/json/"

/-- An endpoint map value: either a single relative path (possibly a
directory path ending in a slash) or an ordered list of alternates. -/
inductive Target where
  | path : String → Target
  | alternates : List String → Target
deriving DecidableEq, Repr

def PRIMARY_ENDPOINTS : List (String × Target) := [
  ("solar_radiation_xray", Target.path "goes/primary/xrays-1-day.json"),
  ("solar_radiation_xray_7d", Target.path "goes/primary/xrays-7-day.json"),
  ("xray_flares", Target.path "goes/primary/xray-flares-latest.json"),
  ("geomagnetic_dst", Target.path "geospace/geospace_dst_1_hour.json"),
  ("geomagnetic_kp", Target.path "geospace/geospace_pred_est_kp_1_hour.json"),
  ("solar_wind_swepam", Target.path "ace/swepam/ace_swepam_1h.json"),
  ("solar_protons", Target.path "goes/primary/integral-protons-1-day.json"),
  ("solar_electrons", Target.path "goes/primary/integral-electrons-1-day.json"),
  ("magnetometers", Target.path "goes/primary/magnetometers-1-day.json"),
  ("cosmic_rays_sis", Target.path "ace/sis/ace_sis_32s.json")]

def SECONDARY_ENDPOINTS : List (String × Target) := [
  ("geomagnetic_dst_7d", Target.path "geospace/geospace_dst_7_day.json"),
  ("geomagnetic_kp_7d", Target.alternates
    ["geospace/geospce_pred_est_kp_7_day.json", "geospace/geosapce_pred_est_kp_7_day.json"]),
  ("solar_wind_density", Target.path "ace/swepam/ace_swepam_1h.json"),
  ("solar_wind_speed", Target.path "dscovr/dscovr_mag_1s.json"),
  ("total_electron_content", Target.path "geospace/geospace_pred_est_kp_1_hour.json"),
  ("plasma_pressure", Target.path "ace/swepam/ace_swepam_1h.json"),
  ("schumann_proxy", Target.path "goes/primary/magnetometers-7-day.json"),
  ("integral_proton_flux", Target.path "goes/primary/integral-proton-fluence-7-day.json"),
  ("integral_electron_flux", Target.path "goes/primary/integral-electron-fluence-7-day.json")]

def TERTIARY_ENDPOINTS : List (String × String) := [
  ("electric_field_us_canada", "lists/rgeojson/US-Canada-1D/"),
  ("electric_field_interMag", "lists/rgeojson/InterMagEarthScope/"),
  ("differential_protons_1d", "goes/primary/differential-protons-1-day.json"),
  ("differential_protons_3d", "goes/primary/differential-protons-3-day.json"),
  ("differential_electrons_1d", "goes/primary/differential-electrons-1-day.json"),
  ("differential_electrons_3d", "goes/primary/differential-electrons-3-day.json"),
  ("ace_magnetic_field_1h", "ace/mag/ace_mag_1h.json"),
  ("ace_epam_5m", "ace/epam/ace_epam_5m.json")]

/-- Python `str.endswith(suffix)`, computed on the code-point list. -/
def strEndsWith (s suffix : String) : Bool := suffix.data.isSuffixOf s.data

/-- Lexicographic code-point order on strings (Python `<` on `str`),
computed on the code-point lists. -/
def charListLt : List Char → List Char → Bool
  | [], [] => false
  | [], _ :: _ => true
  | _ :: _, [] => false
  | a :: as, b :: bs => if a < b then true else if b < a then false else charListLt as bs

/-- Python `str.split(sep)` for a one-character separator: consecutive
separators yield empty fields and the empty string yields one empty field. -/
def splitChar (sep : Char) : List Char → List (List Char)
  | [] => [[]]
  | c :: rest =>
    match splitChar sep rest with
    | [] => if c = sep then [[], []] else [[c]]
    | g :: gs => if c = sep then [] :: g :: gs else (c :: g) :: gs

/-- Python dict lookup (`d[k]` / `k in d`), on an association list. -/
def assocFind {β : Type} (k : String) : List (String × β) → Option β
  | [] => none
  | (k', v) :: rest => if k' = k then some v else assocFind k rest

/-- `response.json().get("files", [])`: a document without a `files` key
yields the empty default. -/
def getFilesField : JsonDoc → List FileEntry
  | JsonDoc.filesListing fs => fs
  | JsonDoc.doc _ => []

/-- `max(files, key=lambda f: f['timestamp'])`: Python's `max` keeps the
first element with the maximal key (later elements replace only on a
strictly greater key). -/
def pyMaxByTimestamp (f0 : FileEntry) (fs : List FileEntry) : FileEntry :=
  fs.foldl (fun best f => if f.timestamp > best.timestamp then f else best) f0

/-- `sorted(filenames, reverse=True)[0]`: the lexicographically greatest
filename. -/
def pyMaxString (m0 : String) (ms : List String) : String :=
  ms.foldl (fun best m => if charListLt best.data m.data then m else best) m0

/-- Strategy 1 of `get_latest_file_url`: GET `<directory>/index.json`; on
status 200 pick the listed file with the maximal timestamp.  A connection
error, an unparseable body, or an empty listing (`max` on an empty sequence
raises) falls through; a non-200 status falls through as well. -/
def indexStrategy (w : World) (base dp : String) (s : NetState) :
    Option String × NetState :=
  match plainRequest w Method.GET (base ++ dp ++ "index.json") s with
  | (none, s') => (none, s')
  | (some resp, s') =>
    if resp.status = 200 then
      match resp.body with
      | none => (none, s')
      | some d =>
        match getFilesField d with
        | [] => (none, s')
        | f0 :: fs => (some (base ++ dp ++ (pyMaxByTimestamp f0 fs).filename), s')
    else (none, s')

/-- Strategy 2 of `get_latest_file_url`: a single `requests.head` against
`<directory>/latest.json`.  Note this is the plain module-level request
function, not the retry-mounted session: exactly one attempt is made. -/
def aliasProbe (w : World) (base dp : String) (s : NetState) :
    Option String × NetState :=
  match plainRequest w Method.HEAD (base ++ dp ++ "latest.json") s with
  | (none, s') => (none, s')
  | (some resp, s') =>
    if resp.status = 200 then (some (base ++ dp ++ "latest.json"), s') else (none, s')

/-- Strategy 3 of `get_latest_file_url`: GET the directory page and scan it
with the fixed filename regex; `resp.textMatches` stands for the list
`re.findall` returns on the body text. -/
def manualScan (w : World) (base dp : String) (s : NetState) :
    Option String × NetState :=
  match plainRequest w Method.GET (base ++ dp) s with
  | (none, s') => (none, s')
  | (some resp, s') =>
    if resp.status = 200 then
      match resp.textMatches with
      | [] => (none, s')
      | m0 :: ms => (some (base ++ dp ++ pyMaxString m0 ms), s')
    else (none, s')

/-- `get_latest_file_url(base_url, directory_key)`: the directory path is
read from `TERTIARY_ENDPOINTS[directory_key]` outside every try block, so a
missing key is an uncaught `KeyError` (`Except.error`).  Otherwise the three
strategies run in order, first success winning; `Except.ok none` is the
final `return None`. -/
def get_latest_file_url (w : World) (base directory_key : String) (s : NetState) :
    Except Unit (Option String) × NetState :=
  match assocFind directory_key TERTIARY_ENDPOINTS with
  | none => (Except.error (), s)
  | some dp =>
    match indexStrategy w base dp s with
    | (some u, s1) => (Except.ok (some u), s1)
    | (none, s1) =>
      match aliasProbe w base dp s1 with
      | (some u, s2) => (Except.ok (some u), s2)
      | (none, s2) =>
        match manualScan w base dp s2 with
        | (some u, s3) => (Except.ok (some u), s3)
        | (none, s3) => (Except.ok none, s3)

structure FetchResult where
  fetched : List (String × JsonDoc)
  written : List String
  net : NetState

/-- The `for ep in endpoint: ... break / else:` loop over an alternates
list: each alternate is fetched through the retrying session; the first one
whose response passes `raise_for_status` (status below 400) wins and its
URL is returned; a raised exception (connection failure, retry exhaustion,
or an error status) moves on to the next alternate. -/
def tryAlternates (w : World) : List String → NetState → Option String × NetState
  | [], s => (none, s)
  | ep :: rest, s =>
    match retryingGet w (NOAA_BASE_URL ++ ep) s with
    | (none, s') => tryAlternates w rest s'
    | (some resp, s') =>
      if resp.status < 400 then (some (NOAA_BASE_URL ++ ep), s')
      else tryAlternates w rest s'

/-- The shared `try: response = session.get(url); raise_for_status; data =
response.json()` block.  `raise_for_status` raises for any status of 400 or
above; a body that fails to parse raises `requests.exceptions.JSONDecodeError`,
which subclasses `RequestException` and is caught by the same handler, so
both cases yield `none`. -/
def fetchCommon (w : World) (url : String) (s : NetState) : Option JsonDoc × NetState :=
  match retryingGet w url s with
  | (none, s') => (none, s')
  | (some resp, s') =>
    if resp.status < 400 then (resp.body, s') else (none, s')

/-- Snapshot file name `f"{category}_{key}_{timestamp}.json"`. -/
def snapshotName (category key ts : String) : String :=
  category ++ "_" ++ key ++ "_" ++ ts ++ ".json"

/-- The tail of one loop iteration once a concrete URL is in hand: on
success record the parsed payload under the key and write the snapshot
file; on failure leave both untouched. -/
def processUrl (w : World) (category ts key url : String) (acc : FetchResult) :
    FetchResult :=
  match fetchCommon w url acc.net with
  | (none, s') => ⟨acc.fetched, acc.written, s'⟩
  | (some d, s') =>
    ⟨acc.fetched ++ [(key, d)], acc.written ++ [snapshotName category key ts], s'⟩

/-- The `for key, endpoint in data_endpoints.items():` loop of
`fetch_noaa_data`.  A list target runs the alternates loop (all alternates
failing logs and continues); a path ending in a slash consults the
resolver, whose uncaught `KeyError` aborts the whole run and whose `None`
result skips the key; any other path is fetched directly. -/
def fetchGo (w : World) (category ts : String) :
    List (String × Target) → FetchResult → Except Unit FetchResult
  | [], acc => Except.ok acc
  | (key, Target.alternates eps) :: rest, acc =>
    match tryAlternates w eps acc.net with
    | (none, s') => fetchGo w category ts rest ⟨acc.fetched, acc.written, s'⟩
    | (some url, s') =>
      fetchGo w category ts rest (processUrl w category ts key url ⟨acc.fetched, acc.written, s'⟩)
  | (key, Target.path p) :: rest, acc =>
    if strEndsWith p "/" then
      match get_latest_file_url w NOAA_BASE_URL key acc.net with
      | (Except.error _, _) => Except.error ()
      | (Except.ok none, s') => fetchGo w category ts rest ⟨acc.fetched, acc.written, s'⟩
      | (Except.ok (some url), s') =>
        fetchGo w category ts rest (processUrl w category ts key url ⟨acc.fetched, acc.written, s'⟩)
    else fetchGo w category ts rest (processUrl w category ts key (NOAA_BASE_URL ++ p) acc)

/-- `fetch_noaa_data(data_endpoints, category)`, with the run's UTC
timestamp string `ts` made explicit; starts from a fresh session and an
empty fetched-data map. -/
def fetch_noaa_data (w : World) (endpoints : List (String × Target)) (category ts : String) :
    Except Unit FetchResult :=
  fetchGo w category ts endpoints ⟨[], [], NetState.init⟩

def fetchedOf : Except Unit FetchResult → List (String × JsonDoc)
  | Except.ok r => r.fetched
  | Except.error _ => []

def writtenOf : Except Unit FetchResult → List String
  | Except.ok r => r.written
  | Except.error _ => []

def traceOf : Except Unit FetchResult → List Req
  | Except.ok r => r.net.trace
  | Except.error _ => []

/-!
Retention sweep (`cleanup_old_files`).  The cache directory is modelled as
a listing of files, each a name with a modification time (seconds on one
timeline); deletion is by name.
-/

structure CacheFile where
  name : String
  mtime : Int
deriving DecidableEq, Repr

def isJsonName (n : String) : Bool := strEndsWith n ".json"

def nameParts (n : String) : List String := (splitChar '_' n.data).map String.mk

/-- `len(parts) >= 3`. -/
def hasCategory (n : String) : Bool := decide (3 ≤ (nameParts n).length)

/-- `'_'.join(parts[:-1])`: everything except the trailing timestamp token. -/
def categoryOf (n : String) : String := String.intercalate "_" (nameParts n).dropLast

/-- `cutoff_time = utcnow() - timedelta(hours=max_age_hours)`. -/
def ageCutoff (now : Int) (maxAgeHours : Nat) : Int := now - maxAgeHours * 3600

/-- The age accumulator of the listing loop: the loop appends, in listing
order, the path of every `.json` file whose time is before the cutoff;
written here as the equivalent filter-then-name pass. -/
def ageMarked (files : List CacheFile) (cutoff : Int) : List String :=
  (files.filter (fun f => isJsonName f.name && decide (f.mtime < cutoff))).map (fun f => f.name)

/-- Appending a file to its category's dict entry, creating the entry at
the end on first sight (Python dicts preserve insertion order). -/
def addToCategory (groups : List (String × List CacheFile)) (c : String) (f : CacheFile) :
    List (String × List CacheFile) :=
  match groups with
  | [] => [(c, [f])]
  | (c', g) :: rest =>
    if c' = c then (c', g ++ [f]) :: rest else (c', g) :: addToCategory rest c f

/-- One step of the grouping loop: every `.json` file whose name splits
into at least three underscore tokens joins its derived category's group. -/
def buildStep (acc : List (String × List CacheFile)) (f : CacheFile) :
    List (String × List CacheFile) :=
  if isJsonName f.name && hasCategory f.name then addToCategory acc (categoryOf f.name) f
  else acc

/-- The grouping accumulator of the listing loop. -/
def buildGroups (files : List CacheFile) : List (String × List CacheFile) :=
  files.foldl buildStep []

/-- Membership condition of category `c`'s group: a structured-data file
with a parseable category equal to `c`. -/
def inCategoryGroup (c : String) (f : CacheFile) : Bool :=
  isJsonName f.name && hasCategory f.name && (categoryOf f.name == c)

/-- Stable insertion for a newest-first order: `files.sort(key=..., reverse=True)`
keeps listing order among equal times. -/
def insertDesc (f : CacheFile) : List CacheFile → List CacheFile
  | [] => [f]
  | g :: rest => if g.mtime ≤ f.mtime then f :: g :: rest else g :: insertDesc f rest

def sortDesc : List CacheFile → List CacheFile
  | [] => []
  | f :: rest => insertDesc f (sortDesc rest)

/-- `if file_path not in files_to_delete: files_to_delete.append(file_path)`
over a run of files. -/
def dedupAppend (l : List CacheFile) (acc : List String) : List String :=
  l.foldl (fun a f => if f.name ∈ a then a else a ++ [f.name]) acc

/-- One category's count rule: sort newest first and mark everything past
position `maxN`. -/
def markExtras (g : List CacheFile) (maxN : Nat) (acc : List String) : List String :=
  dedupAppend ((sortDesc g).drop maxN) acc

/-- The per-category loop over the grouping dict. -/
def countMarked (groups : List (String × List CacheFile)) (maxN : Nat)
    (init : List String) : List String :=
  groups.foldl (fun a cg => markExtras cg.2 maxN a) init

def filesToDelete (files : List CacheFile) (cutoff : Int) (maxN : Nat) : List String :=
  countMarked (buildGroups files) maxN (ageMarked files cutoff)

/-- `cleanup_old_files(data_dir, max_age_hours, max_files_per_category)`,
returning the set (ordered, deduplicated list) of file names it deletes. -/
def cleanup_old_files (files : List CacheFile) (now : Int)
    (maxAgeHours maxN : Nat) : List String :=
  filesToDelete files (ageCutoff now maxAgeHours) maxN

/-- The directory after a sweep: every marked file removed (the script's
`os.remove` succeeding). -/
def afterCleanup (files : List CacheFile) (now : Int) (maxAgeHours maxN : Nat) :
    List CacheFile :=
  files.filter (fun f => decide (f.name ∉ cleanup_old_files files now maxAgeHours maxN))

/-!
Concrete worlds used to instantiate the theorems below on closed inputs.
-/

/-- First alternate unreachable, second alternate serving document 7. -/
def worldC1 : World := ⟨fun u =>
  if u = NOAA_BASE_URL ++ "b.json" then
    [⟨200, some (JsonDoc.doc 7), []⟩, ⟨200, some (JsonDoc.doc 7), []⟩]
  else []⟩

/-- Directory index present with two listed files; the alias probe would
also answer 200 with a different URL. -/
def worldC2 : World := ⟨fun u =>
  if u = NOAA_BASE_URL ++ "lists/rgeojson/US-Canada-1D/" ++ "index.json" then
    [⟨200, some (JsonDoc.filesListing [⟨"old.json", 1⟩, ⟨"new.json", 5⟩]), []⟩]
  else if u = NOAA_BASE_URL ++ "lists/rgeojson/US-Canada-1D/" ++ "latest.json" then
    [⟨200, none, []⟩]
  else []⟩

/-- No index; the alias URL answers 503 on the first request and 200 on the
second, so a retried probe would have succeeded. -/
def worldC3 : World := ⟨fun u =>
  if u = NOAA_BASE_URL ++ "lists/rgeojson/US-Canada-1D/" ++ "latest.json" then
    [⟨503, none, []⟩, ⟨200, none, []⟩]
  else []⟩

/-- First key's URL answers 404 on every request; second key healthy. -/
def worldC7 : World := ⟨fun u =>
  if u = NOAA_BASE_URL ++ "p1.json" then [⟨404, none, []⟩]
  else if u = NOAA_BASE_URL ++ "p2.json" then [⟨200, some (JsonDoc.doc 3), []⟩]
  else []⟩

/-- First key's URL answers 200 with an unparseable body; second key healthy. -/
def worldC8 : World := ⟨fun u =>
  if u = NOAA_BASE_URL ++ "p1.json" then [⟨200, none, []⟩]
  else if u = NOAA_BASE_URL ++ "p2.json" then [⟨200, some (JsonDoc.doc 3), []⟩]
  else []⟩

/-!
Helper lemmas.
-/

theorem statusForcelist_not_ok {n : Nat} (h : n < 400) : n ∉ statusForcelist := by
  intro hm
  simp [statusForcelist] at hm
  omega

theorem bumpState_counts_ne (s : NetState) (m : Method) (url v : String) (h : v ≠ url) :
    (bumpState s m url).counts v = s.counts v := by
  simp [bumpState, h]

theorem bumpState_counts_eq (s : NetState) (m : Method) (url : String) :
    (bumpState s m url).counts url = s.counts url + 1 := by
  simp [bumpState]

theorem bumpState_trace (s : NetState) (m : Method) (url : String) :
    (bumpState s m url).trace = s.trace ++ [⟨m, url⟩] := rfl

/-- A retrying GET whose first response exists and is not retryable returns
that response after exactly one raw request. -/
theorem retryingGet_hit (w : World) (url : String) (s : NetState) (r : Response)
    (h1 : (w.responses url)[s.counts url]? = some r)
    (h2 : r.status ∉ statusForcelist) :
    retryingGet w url s = (some r, bumpState s Method.GET url) := by
  simp [retryingGet, retryingGetAux, plainRequest, h1, h2]

theorem retryingGetAux_fst_of_empty (w : World) (url : String)
    (hw : w.responses url = []) :
    ∀ (fuel : Nat) (s : NetState), (retryingGetAux w url fuel s).1 = none := by
  intro fuel
  induction fuel with
  | zero => intro s; rfl
  | succ fuel ih =>
    intro s
    simp only [retryingGetAux, plainRequest, hw]
    exact ih _

theorem retryingGetAux_counts_ne (w : World) (url v : String) (h : v ≠ url) :
    ∀ (fuel : Nat) (s : NetState), ((retryingGetAux w url fuel s).2).counts v = s.counts v := by
  intro fuel
  induction fuel with
  | zero => intro s; rfl
  | succ fuel ih =>
    intro s
    rcases hr : (w.responses url)[s.counts url]? with _ | r
    · simp only [retryingGetAux, plainRequest, hr]
      rw [ih]
      exact bumpState_counts_ne s Method.GET url v h
    · by_cases hm : r.status ∈ statusForcelist
      · simp only [retryingGetAux, plainRequest, hr, if_pos hm]
        rw [ih]
        exact bumpState_counts_ne s Method.GET url v h
      · simp only [retryingGetAux, plainRequest, hr, if_neg hm]
        exact bumpState_counts_ne s Method.GET url v h

theorem retryingGetAux_trace (w : World) (url : String) :
    ∀ (fuel : Nat) (s : NetState), ∃ ext : List Req,
      ((retryingGetAux w url fuel s).2).trace = s.trace ++ ext
      ∧ ∀ q ∈ ext, q = Req.mk Method.GET url := by
  intro fuel
  induction fuel with
  | zero =>
    intro s
    exact ⟨[], by simp [retryingGetAux], by simp⟩
  | succ fuel ih =>
    intro s
    rcases hr : (w.responses url)[s.counts url]? with _ | r
    · simp only [retryingGetAux, plainRequest, hr]
      obtain ⟨ext, h1, h2⟩ := ih (bumpState s Method.GET url)
      refine ⟨⟨Method.GET, url⟩ :: ext, ?_, ?_⟩
      · rw [h1, bumpState_trace]
        simp
      · intro q hq
        rcases List.mem_cons.mp hq with rfl | hq2
        · rfl
        · exact h2 q hq2
    · by_cases hm : r.status ∈ statusForcelist
      · simp only [retryingGetAux, plainRequest, hr, if_pos hm]
        obtain ⟨ext, h1, h2⟩ := ih (bumpState s Method.GET url)
        refine ⟨⟨Method.GET, url⟩ :: ext, ?_, ?_⟩
        · rw [h1, bumpState_trace]
          simp
        · intro q hq
          rcases List.mem_cons.mp hq with rfl | hq2
          · rfl
          · exact h2 q hq2
      · simp only [retryingGetAux, plainRequest, hr, if_neg hm]
        exact ⟨[⟨Method.GET, url⟩], bumpState_trace s Method.GET url, by simp⟩

/-- A single-path, non-directory endpoint steps to the shared fetch block. -/
theorem fetchGo_path_step (w : World) (category ts key p : String)
    (rest : List (String × Target)) (acc : FetchResult)
    (hdir : strEndsWith p "/" = false) :
    fetchGo w category ts ((key, Target.path p) :: rest) acc =
      fetchGo w category ts rest (processUrl w category ts key (NOAA_BASE_URL ++ p) acc) := by
  simp [fetchGo, hdir]

theorem pyMaxByTimestamp_cons (f0 f : FileEntry) (fs : List FileEntry) :
    pyMaxByTimestamp f0 (f :: fs) =
      pyMaxByTimestamp (if f.timestamp > f0.timestamp then f else f0) fs := rfl

theorem pyMaxByTimestamp_base_le (fs : List FileEntry) : ∀ f0 : FileEntry,
    f0.timestamp ≤ (pyMaxByTimestamp f0 fs).timestamp := by
  induction fs with
  | nil => intro f0; simp [pyMaxByTimestamp]
  | cons f fs ih =>
    intro f0
    rw [pyMaxByTimestamp_cons]
    by_cases h : f.timestamp > f0.timestamp
    · rw [if_pos h]
      exact le_trans (le_of_lt h) (ih f)
    · rw [if_neg h]
      exact ih f0

theorem pyMaxByTimestamp_mem (fs : List FileEntry) : ∀ f0 : FileEntry,
    pyMaxByTimestamp f0 fs ∈ f0 :: fs := by
  induction fs with
  | nil => intro f0; simp [pyMaxByTimestamp]
  | cons f fs ih =>
    intro f0
    rw [pyMaxByTimestamp_cons]
    by_cases h : f.timestamp > f0.timestamp
    · rw [if_pos h]
      have := ih f
      simp only [List.mem_cons] at this ⊢
      tauto
    · rw [if_neg h]
      have := ih f0
      simp only [List.mem_cons] at this ⊢
      tauto

theorem pyMaxByTimestamp_le (fs : List FileEntry) : ∀ f0 fe : FileEntry, fe ∈ f0 :: fs →
    fe.timestamp ≤ (pyMaxByTimestamp f0 fs).timestamp := by
  induction fs with
  | nil =>
    intro f0 fe hfe
    simp at hfe
    subst hfe
    simp [pyMaxByTimestamp]
  | cons f fs ih =>
    intro f0 fe hfe
    rw [pyMaxByTimestamp_cons]
    simp only [List.mem_cons] at hfe
    rcases hfe with rfl | rfl | hfe
    · by_cases h : f.timestamp > fe.timestamp
      · rw [if_pos h]
        exact le_trans (le_of_lt h) (pyMaxByTimestamp_base_le fs f)
      · rw [if_neg h]
        exact pyMaxByTimestamp_base_le fs fe
    · by_cases h : fe.timestamp > f0.timestamp
      · rw [if_pos h]
        exact pyMaxByTimestamp_base_le fs fe
      · rw [if_neg h]
        push_neg at h
        exact le_trans h (pyMaxByTimestamp_base_le fs f0)
    · exact ih _ fe (List.mem_cons_of_mem _ hfe)

/-!
Claim theorems.
-/

/-- Claim C2: when the index lookup against `<directory>/index.json`
answers 200 with a non-empty file listing, `get_latest_file_url` returns
the URL of the listed file with the maximal timestamp, and the only request
it issues is that single GET to the index — in particular no probe of
`<directory>/latest.json` happens, however that alias would have answered:
the three strategies are a strict priority order. -/
theorem C2_index_strategy_wins (w : World) (base key dp : String) (s : NetState)
    (f0 : FileEntry) (fs : List FileEntry) (r : Response)
    (hdp : assocFind key TERTIARY_ENDPOINTS = some dp)
    (hr : (w.responses (base ++ dp ++ "index.json"))[s.counts (base ++ dp ++ "index.json")]? = some r)
    (hst : r.status = 200)
    (hbody : r.body = some (JsonDoc.filesListing (f0 :: fs))) :
    (get_latest_file_url w base key s).1 =
      Except.ok (some (base ++ dp ++ (pyMaxByTimestamp f0 fs).filename))
    ∧ (get_latest_file_url w base key s).2.trace =
      s.trace ++ [⟨Method.GET, base ++ dp ++ "index.json"⟩]
    ∧ pyMaxByTimestamp f0 fs ∈ f0 :: fs
    ∧ ∀ fe ∈ f0 :: fs, fe.timestamp ≤ (pyMaxByTimestamp f0 fs).timestamp := by
  have hres : indexStrategy w base dp s =
      (some (base ++ dp ++ (pyMaxByTimestamp f0 fs).filename),
       bumpState s Method.GET (base ++ dp ++ "index.json")) := by
    simp [indexStrategy, plainRequest, hr, hst, hbody, getFilesField]
  refine ⟨?_, ?_, pyMaxByTimestamp_mem fs f0, fun fe hfe => pyMaxByTimestamp_le fs f0 fe hfe⟩
  · simp [get_latest_file_url, hdp, hres]
  · simp [get_latest_file_url, hdp, hres, bumpState]

/-- Witness for C2 on a concrete world: the index lists `old.json` (t=1)
and `new.json` (t=5); the resolver picks `new.json`. -/
theorem C2_index_strategy_wins_witness :
    (get_latest_file_url worldC2 NOAA_BASE_URL "electric_field_us_canada" NetState.init).1 =
      Except.ok (some (NOAA_BASE_URL ++ "lists/rgeojson/US-Canada-1D/" ++
        (pyMaxByTimestamp ⟨"old.json", 1⟩ [⟨"new.json", 5⟩]).filename))
    ∧ (get_latest_file_url worldC2 NOAA_BASE_URL "electric_field_us_canada" NetState.init).2.trace =
      NetState.init.trace ++
        [⟨Method.GET, NOAA_BASE_URL ++ "lists/rgeojson/US-Canada-1D/" ++ "index.json"⟩]
    ∧ pyMaxByTimestamp ⟨"old.json", 1⟩ [⟨"new.json", 5⟩] ∈
        (⟨"old.json", 1⟩ : FileEntry) :: [⟨"new.json", 5⟩]
    ∧ ∀ fe ∈ (⟨"old.json", 1⟩ : FileEntry) :: [⟨"new.json", 5⟩],
        fe.timestamp ≤ (pyMaxByTimestamp ⟨"old.json", 1⟩ [⟨"new.json", 5⟩]).timestamp :=
  C2_index_strategy_wins worldC2 NOAA_BASE_URL "electric_field_us_canada"
    "lists/rgeojson/US-Canada-1D/" NetState.init ⟨"old.json", 1⟩ [⟨"new.json", 5⟩]
    ⟨200, some (JsonDoc.filesListing [⟨"old.json", 1⟩, ⟨"new.json", 5⟩]), []⟩
    (by decide) (by decide) rfl rfl

/-- Claim C3 is false on the code: in a world where the first HEAD to the
alias URL answers 503 (a retryable status) and the very next response on
that URL would be 200 — well within the five-retry budget — the resolver
still fails (returns the not-found signal, no other strategy succeeding
here) and its trace shows exactly one request to the alias URL: the probe
uses the plain module-level `requests.head`, not the retry-mounted session,
so it is never retried. -/
theorem C3_counterexample :
    ((worldC3.responses (NOAA_BASE_URL ++ "lists/rgeojson/US-Canada-1D/" ++ "latest.json"))[1]?).map
        Response.status = some 200
    ∧ (get_latest_file_url worldC3 NOAA_BASE_URL "electric_field_us_canada" NetState.init).1 =
        Except.ok none
    ∧ ((get_latest_file_url worldC3 NOAA_BASE_URL "electric_field_us_canada" NetState.init).2.trace.filter
        (fun r => r.url == NOAA_BASE_URL ++ "lists/rgeojson/US-Canada-1D/" ++ "latest.json")).length
        = 1 := by
  refine ⟨rfl, rfl, rfl⟩

/-- Claim C3, amended: the retry policy governs only the orchestrator's
session requests; the resolver's alias probe is a single plain HEAD with no
retries, so a HEAD to `<directory>/latest.json` answering a retryable
status makes the probe fail immediately, after exactly one request. -/
theorem C3_alias_probe_not_retried (w : World) (base dp : String) (s : NetState) (r : Response)
    (h1 : (w.responses (base ++ dp ++ "latest.json"))[s.counts (base ++ dp ++ "latest.json")]? = some r)
    (h2 : r.status ∈ statusForcelist) :
    (aliasProbe w base dp s).1 = none
    ∧ (aliasProbe w base dp s).2.trace = s.trace ++ [⟨Method.HEAD, base ++ dp ++ "latest.json"⟩] := by
  have hne : r.status ≠ 200 := by
    intro h
    rw [h] at h2
    simp [statusForcelist] at h2
  constructor <;> simp [aliasProbe, plainRequest, bumpState, h1, hne]

/-- Witness for the amended C3: the 503 answer of `worldC3` fails the probe
after one HEAD. -/
theorem C3_alias_probe_not_retried_witness :
    (aliasProbe worldC3 NOAA_BASE_URL "lists/rgeojson/US-Canada-1D/" NetState.init).1 = none
    ∧ (aliasProbe worldC3 NOAA_BASE_URL "lists/rgeojson/US-Canada-1D/" NetState.init).2.trace =
      NetState.init.trace ++
        [⟨Method.HEAD, NOAA_BASE_URL ++ "lists/rgeojson/US-Canada-1D/" ++ "latest.json"⟩] :=
  C3_alias_probe_not_retried worldC3 NOAA_BASE_URL "lists/rgeojson/US-Canada-1D/" NetState.init
    ⟨503, none, []⟩ (by decide) (by decide)

/-- A run whose endpoint map contains, anywhere, a directory-style key that
is absent from the tertiary catalog ends in the uncaught `KeyError`
regardless of what precedes or follows it. -/
theorem fetchGo_error_of_missing_key (w : World) (category ts key dp : String)
    (rest : List (String × Target))
    (hdir : strEndsWith dp "/" = true)
    (hlk : assocFind key TERTIARY_ENDPOINTS = none) :
    ∀ (pre : List (String × Target)) (acc : FetchResult),
      fetchGo w category ts (pre ++ (key, Target.path dp) :: rest) acc = Except.error () := by
  intro pre
  induction pre with
  | nil =>
    intro acc
    simp [fetchGo, hdir, get_latest_file_url, hlk]
  | cons e pre ih =>
    intro acc
    obtain ⟨k, t⟩ := e
    cases t with
    | alternates eps =>
      rw [List.cons_append]
      show fetchGo w category ts ((k, Target.alternates eps) :: (pre ++ (key, Target.path dp) :: rest)) acc = Except.error ()
      rw [fetchGo]
      rcases h : tryAlternates w eps acc.net with ⟨o, s'⟩
      cases o with
      | none => exact ih _
      | some url => exact ih _
    | path p =>
      rw [List.cons_append]
      show fetchGo w category ts ((k, Target.path p) :: (pre ++ (key, Target.path dp) :: rest)) acc = Except.error ()
      rw [fetchGo]
      by_cases hp : strEndsWith p "/"
      · rw [if_pos hp]
        rcases h : get_latest_file_url w NOAA_BASE_URL k acc.net with ⟨res, s'⟩
        cases res with
        | error e => rfl
        | ok o =>
          cases o with
          | none => exact ih _
          | some url => exact ih _
      · rw [if_neg hp]
        exact ih _

/-- Claim C10: `get_latest_file_url` reads the directory path from the
tertiary catalog alone — the orchestrator passes only the key, never the
endpoint map it is iterating, so the map's own target (`dp` below is
arbitrary) is ignored — and when the key is absent from that catalog the
lookup fails before any try block: the resolver signals the uncaught
`KeyError` without issuing any request, and the whole `fetch_noaa_data` run
aborts instead of skipping the key. -/
theorem C10_missing_tertiary_key_aborts (w : World) (key dp category ts : String)
    (pre rest : List (String × Target))
    (hdir : strEndsWith dp "/" = true)
    (hlk : assocFind key TERTIARY_ENDPOINTS = none) :
    (∀ s : NetState, get_latest_file_url w NOAA_BASE_URL key s = (Except.error (), s))
    ∧ fetch_noaa_data w (pre ++ (key, Target.path dp) :: rest) category ts = Except.error () := by
  constructor
  · intro s
    simp [get_latest_file_url, hlk]
  · exact fetchGo_error_of_missing_key w category ts key dp rest hdir hlk pre _

/-- Witness for C10: the key `solar_wind_speed` (a genuine key of the
secondary tier, absent from the tertiary catalog) with a directory-style
target aborts the whole run. -/
theorem C10_missing_tertiary_key_aborts_witness :
    (∀ s : NetState,
      get_latest_file_url worldC7 NOAA_BASE_URL "solar_wind_speed" s = (Except.error (), s))
    ∧ fetch_noaa_data worldC7
        ([("solar_radiation_xray", Target.path "goes/primary/xrays-1-day.json")] ++
          ("solar_wind_speed", Target.path "dscovr/") ::
            [("cosmic_rays_sis", Target.path "ace/sis/ace_sis_32s.json")]) "secondary" "20250101000000"
      = Except.error () :=
  C10_missing_tertiary_key_aborts worldC7 "solar_wind_speed" "dscovr/" "secondary" "20250101000000"
    [("solar_radiation_xray", Target.path "goes/primary/xrays-1-day.json")]
    [("cosmic_rays_sis", Target.path "ace/sis/ace_sis_32s.json")]
    (by decide) (by decide)

/-- Claim C7: a single-path endpoint whose URL answers 404 fails after
exactly one request — 404 is not in the retry forcelist, so no retry is
consumed — the failure stays local to that key (the next key is fetched
normally), the key is omitted from the returned mapping and no snapshot
file is written for it. -/
theorem C7_404_fails_immediately (w : World) (k1 k2 p1 p2 category ts : String)
    (r1 r2 : Response) (d : JsonDoc)
    (h1dir : strEndsWith p1 "/" = false)
    (h2dir : strEndsWith p2 "/" = false)
    (hne : NOAA_BASE_URL ++ p2 ≠ NOAA_BASE_URL ++ p1)
    (hr1 : (w.responses (NOAA_BASE_URL ++ p1))[0]? = some r1)
    (hst1 : r1.status = 404)
    (hr2 : (w.responses (NOAA_BASE_URL ++ p2))[0]? = some r2)
    (hst2 : r2.status = 200)
    (hbody2 : r2.body = some d) :
    (404 : Nat) ∉ statusForcelist
    ∧ fetchedOf (fetch_noaa_data w [(k1, Target.path p1), (k2, Target.path p2)] category ts)
      = [(k2, d)]
    ∧ writtenOf (fetch_noaa_data w [(k1, Target.path p1), (k2, Target.path p2)] category ts)
      = [snapshotName category k2 ts]
    ∧ traceOf (fetch_noaa_data w [(k1, Target.path p1), (k2, Target.path p2)] category ts)
      = [⟨Method.GET, NOAA_BASE_URL ++ p1⟩, ⟨Method.GET, NOAA_BASE_URL ++ p2⟩] := by
  have hg1 : retryingGet w (NOAA_BASE_URL ++ p1) NetState.init =
      (some r1, bumpState NetState.init Method.GET (NOAA_BASE_URL ++ p1)) :=
    retryingGet_hit w (NOAA_BASE_URL ++ p1) NetState.init r1 hr1
      (by rw [hst1]; decide)
  have hc2 : (bumpState NetState.init Method.GET (NOAA_BASE_URL ++ p1)).counts
      (NOAA_BASE_URL ++ p2) = 0 :=
    bumpState_counts_ne NetState.init Method.GET (NOAA_BASE_URL ++ p1) (NOAA_BASE_URL ++ p2) hne
  have hg2 : retryingGet w (NOAA_BASE_URL ++ p2)
      (bumpState NetState.init Method.GET (NOAA_BASE_URL ++ p1)) =
      (some r2, bumpState (bumpState NetState.init Method.GET (NOAA_BASE_URL ++ p1))
        Method.GET (NOAA_BASE_URL ++ p2)) :=
    retryingGet_hit w (NOAA_BASE_URL ++ p2) _ r2 (by rw [hc2]; exact hr2)
      (by rw [hst2]; decide)
  have hrun : fetch_noaa_data w [(k1, Target.path p1), (k2, Target.path p2)] category ts =
      Except.ok ⟨[(k2, d)], [snapshotName category k2 ts],
        bumpState (bumpState NetState.init Method.GET (NOAA_BASE_URL ++ p1))
          Method.GET (NOAA_BASE_URL ++ p2)⟩ := by
    rw [fetch_noaa_data, fetchGo_path_step w category ts k1 p1 _ _ h1dir]
    have hp1 : processUrl w category ts k1 (NOAA_BASE_URL ++ p1) ⟨[], [], NetState.init⟩ =
        ⟨[], [], bumpState NetState.init Method.GET (NOAA_BASE_URL ++ p1)⟩ := by
      simp [processUrl, fetchCommon, hg1, hst1]
    rw [hp1, fetchGo_path_step w category ts k2 p2 _ _ h2dir]
    have hp2 : processUrl w category ts k2 (NOAA_BASE_URL ++ p2)
        ⟨[], [], bumpState NetState.init Method.GET (NOAA_BASE_URL ++ p1)⟩ =
        ⟨[(k2, d)], [snapshotName category k2 ts],
          bumpState (bumpState NetState.init Method.GET (NOAA_BASE_URL ++ p1))
            Method.GET (NOAA_BASE_URL ++ p2)⟩ := by
      simp [processUrl, fetchCommon, hg2, hst2, hbody2]
    rw [hp2]
    rfl
  refine ⟨by decide, ?_, ?_, ?_⟩ <;>
    simp [hrun, fetchedOf, writtenOf, traceOf, bumpState, NetState.init]

/-- Witness for C7 on `worldC7`: `p1.json` answers 404, `p2.json` serves
document 3. -/
theorem C7_404_fails_immediately_witness :
    (404 : Nat) ∉ statusForcelist
    ∧ fetchedOf (fetch_noaa_data worldC7
        [("k1", Target.path "p1.json"), ("k2", Target.path "p2.json")] "primary" "20250101000000")
      = [("k2", JsonDoc.doc 3)]
    ∧ writtenOf (fetch_noaa_data worldC7
        [("k1", Target.path "p1.json"), ("k2", Target.path "p2.json")] "primary" "20250101000000")
      = [snapshotName "primary" "k2" "20250101000000"]
    ∧ traceOf (fetch_noaa_data worldC7
        [("k1", Target.path "p1.json"), ("k2", Target.path "p2.json")] "primary" "20250101000000")
      = [⟨Method.GET, NOAA_BASE_URL ++ "p1.json"⟩, ⟨Method.GET, NOAA_BASE_URL ++ "p2.json"⟩] :=
  C7_404_fails_immediately worldC7 "k1" "k2" "p1.json" "p2.json" "primary" "20250101000000"
    ⟨404, none, []⟩ ⟨200, some (JsonDoc.doc 3), []⟩ (JsonDoc.doc 3)
    (by decide) (by decide) (by decide) (by decide) rfl (by decide) rfl rfl

/-- Claim C8: an endpoint whose HTTP fetch succeeds (status 200) but whose
body fails to parse is treated exactly like a fetch failure for that key —
`response.json()` raises a `RequestException` subclass caught by the same
handler — so the key is omitted from the returned mapping, no snapshot file
is written for it, and the loop continues with the remaining keys. -/
theorem C8_parse_failure_is_fetch_failure (w : World) (k1 k2 p1 p2 category ts : String)
    (r1 r2 : Response) (d : JsonDoc)
    (h1dir : strEndsWith p1 "/" = false)
    (h2dir : strEndsWith p2 "/" = false)
    (hne : NOAA_BASE_URL ++ p2 ≠ NOAA_BASE_URL ++ p1)
    (hr1 : (w.responses (NOAA_BASE_URL ++ p1))[0]? = some r1)
    (hst1 : r1.status = 200)
    (hbody1 : r1.body = none)
    (hr2 : (w.responses (NOAA_BASE_URL ++ p2))[0]? = some r2)
    (hst2 : r2.status = 200)
    (hbody2 : r2.body = some d) :
    fetchedOf (fetch_noaa_data w [(k1, Target.path p1), (k2, Target.path p2)] category ts)
      = [(k2, d)]
    ∧ writtenOf (fetch_noaa_data w [(k1, Target.path p1), (k2, Target.path p2)] category ts)
      = [snapshotName category k2 ts]
    ∧ traceOf (fetch_noaa_data w [(k1, Target.path p1), (k2, Target.path p2)] category ts)
      = [⟨Method.GET, NOAA_BASE_URL ++ p1⟩, ⟨Method.GET, NOAA_BASE_URL ++ p2⟩] := by
  have hg1 : retryingGet w (NOAA_BASE_URL ++ p1) NetState.init =
      (some r1, bumpState NetState.init Method.GET (NOAA_BASE_URL ++ p1)) :=
    retryingGet_hit w (NOAA_BASE_URL ++ p1) NetState.init r1 hr1
      (by rw [hst1]; decide)
  have hc2 : (bumpState NetState.init Method.GET (NOAA_BASE_URL ++ p1)).counts
      (NOAA_BASE_URL ++ p2) = 0 :=
    bumpState_counts_ne NetState.init Method.GET (NOAA_BASE_URL ++ p1) (NOAA_BASE_URL ++ p2) hne
  have hg2 : retryingGet w (NOAA_BASE_URL ++ p2)
      (bumpState NetState.init Method.GET (NOAA_BASE_URL ++ p1)) =
      (some r2, bumpState (bumpState NetState.init Method.GET (NOAA_BASE_URL ++ p1))
        Method.GET (NOAA_BASE_URL ++ p2)) :=
    retryingGet_hit w (NOAA_BASE_URL ++ p2) _ r2 (by rw [hc2]; exact hr2)
      (by rw [hst2]; decide)
  have hrun : fetch_noaa_data w [(k1, Target.path p1), (k2, Target.path p2)] category ts =
      Except.ok ⟨[(k2, d)], [snapshotName category k2 ts],
        bumpState (bumpState NetState.init Method.GET (NOAA_BASE_URL ++ p1))
          Method.GET (NOAA_BASE_URL ++ p2)⟩ := by
    rw [fetch_noaa_data, fetchGo_path_step w category ts k1 p1 _ _ h1dir]
    have hp1 : processUrl w category ts k1 (NOAA_BASE_URL ++ p1) ⟨[], [], NetState.init⟩ =
        ⟨[], [], bumpState NetState.init Method.GET (NOAA_BASE_URL ++ p1)⟩ := by
      simp [processUrl, fetchCommon, hg1, hst1, hbody1]
    rw [hp1, fetchGo_path_step w category ts k2 p2 _ _ h2dir]
    have hp2 : processUrl w category ts k2 (NOAA_BASE_URL ++ p2)
        ⟨[], [], bumpState NetState.init Method.GET (NOAA_BASE_URL ++ p1)⟩ =
        ⟨[(k2, d)], [snapshotName category k2 ts],
          bumpState (bumpState NetState.init Method.GET (NOAA_BASE_URL ++ p1))
            Method.GET (NOAA_BASE_URL ++ p2)⟩ := by
      simp [processUrl, fetchCommon, hg2, hst2, hbody2]
    rw [hp2]
    rfl
  refine ⟨?_, ?_, ?_⟩ <;>
    simp [hrun, fetchedOf, writtenOf, traceOf, bumpState, NetState.init]

/-- Witness for C8 on `worldC8`: `p1.json` answers 200 with an unparseable
body, `p2.json` serves document 3. -/
theorem C8_parse_failure_is_fetch_failure_witness :
    fetchedOf (fetch_noaa_data worldC8
        [("k1", Target.path "p1.json"), ("k2", Target.path "p2.json")] "primary" "20250101000000")
      = [("k2", JsonDoc.doc 3)]
    ∧ writtenOf (fetch_noaa_data worldC8
        [("k1", Target.path "p1.json"), ("k2", Target.path "p2.json")] "primary" "20250101000000")
      = [snapshotName "primary" "k2" "20250101000000"]
    ∧ traceOf (fetch_noaa_data worldC8
        [("k1", Target.path "p1.json"), ("k2", Target.path "p2.json")] "primary" "20250101000000")
      = [⟨Method.GET, NOAA_BASE_URL ++ "p1.json"⟩, ⟨Method.GET, NOAA_BASE_URL ++ "p2.json"⟩] :=
  C8_parse_failure_is_fetch_failure worldC8 "k1" "k2" "p1.json" "p2.json" "primary" "20250101000000"
    ⟨200, none, []⟩ ⟨200, some (JsonDoc.doc 3), []⟩ (JsonDoc.doc 3)
    (by decide) (by decide) (by decide) (by decide) rfl rfl (by decide) rfl rfl

/-- The alternates loop skips a prefix of alternates whose URLs are
unreachable (every request errors), reaching the remaining alternates with
the other URLs' consumption untouched and only requests to the skipped
URLs added to the trace. -/
theorem tryAlternates_skip_failed (w : World) :
    ∀ (pre rest : List String) (s : NetState),
      (∀ a ∈ pre, w.responses (NOAA_BASE_URL ++ a) = []) →
      ∃ s' : NetState, tryAlternates w (pre ++ rest) s = tryAlternates w rest s'
        ∧ (∀ v : String, (∀ a ∈ pre, v ≠ NOAA_BASE_URL ++ a) → s'.counts v = s.counts v)
        ∧ ∃ ext : List Req, s'.trace = s.trace ++ ext
            ∧ ∀ q ∈ ext, ∃ a ∈ pre, q = Req.mk Method.GET (NOAA_BASE_URL ++ a) := by
  intro pre
  induction pre with
  | nil =>
    intro rest s h
    exact ⟨s, rfl, fun v _ => rfl, [], by simp, by simp⟩
  | cons a pre ih =>
    intro rest s h
    have hwa : w.responses (NOAA_BASE_URL ++ a) = [] := h a (List.mem_cons_self a pre)
    rcases hg : retryingGet w (NOAA_BASE_URL ++ a) s with ⟨o, s1⟩
    have ho : o = none := by
      have := retryingGetAux_fst_of_empty w (NOAA_BASE_URL ++ a) hwa 6 s
      rw [show retryingGetAux w (NOAA_BASE_URL ++ a) 6 s = retryingGet w (NOAA_BASE_URL ++ a) s from rfl,
        hg] at this
      exact this
    subst ho
    have hstep : tryAlternates w ((a :: pre) ++ rest) s = tryAlternates w (pre ++ rest) s1 := by
      show tryAlternates w (a :: (pre ++ rest)) s = tryAlternates w (pre ++ rest) s1
      rw [tryAlternates, hg]
    have hc1 : ∀ v : String, v ≠ NOAA_BASE_URL ++ a → s1.counts v = s.counts v := by
      intro v hv
      have := retryingGetAux_counts_ne w (NOAA_BASE_URL ++ a) v hv 6 s
      rw [show retryingGetAux w (NOAA_BASE_URL ++ a) 6 s = retryingGet w (NOAA_BASE_URL ++ a) s from rfl,
        hg] at this
      exact this
    have ht1 : ∃ ext : List Req, s1.trace = s.trace ++ ext
        ∧ ∀ q ∈ ext, q = Req.mk Method.GET (NOAA_BASE_URL ++ a) := by
      have := retryingGetAux_trace w (NOAA_BASE_URL ++ a) 6 s
      rw [show retryingGetAux w (NOAA_BASE_URL ++ a) 6 s = retryingGet w (NOAA_BASE_URL ++ a) s from rfl,
        hg] at this
      exact this
    obtain ⟨ext1, hext1, hext1q⟩ := ht1
    obtain ⟨s2, hrec, hc2, ext2, hext2, hext2q⟩ :=
      ih rest s1 (fun a' ha' => h a' (List.mem_cons_of_mem a ha'))
    refine ⟨s2, by rw [hstep, hrec], ?_, ext1 ++ ext2, ?_, ?_⟩
    · intro v hv
      rw [hc2 v (fun a' ha' => hv a' (List.mem_cons_of_mem a ha')),
        hc1 v (hv a (List.mem_cons_self a pre))]
    · rw [hext2, hext1, List.append_assoc]
    · intro q hq
      rcases List.mem_append.mp hq with hq1 | hq2
      · exact ⟨a, List.mem_cons_self a pre, hext1q q hq1⟩
      · obtain ⟨a', ha', hqa⟩ := hext2q q hq2
        exact ⟨a', List.mem_cons_of_mem a ha', hqa⟩

/-- Claim C1: for an alternates-list endpoint whose first `k` alternates
are unreachable while alternate `k+1` serves success (both requests to it —
the loop probe and the shared fetch — answer below 400, the second with
payload `d`), the run's mapping holds exactly that payload for the key, the
snapshot is written, and no request is ever issued to any alternate after
the successful one. -/
theorem C1_first_successful_alternate_wins (w : World) (key category ts ak : String)
    (pre post : List String) (r0 r1 : Response) (d : JsonDoc)
    (hpre : ∀ a ∈ pre, w.responses (NOAA_BASE_URL ++ a) = [])
    (hnd : ((pre ++ ak :: post).map (fun a => NOAA_BASE_URL ++ a)).Nodup)
    (h0 : (w.responses (NOAA_BASE_URL ++ ak))[0]? = some r0)
    (hst0 : r0.status < 400)
    (h1 : (w.responses (NOAA_BASE_URL ++ ak))[1]? = some r1)
    (hst1 : r1.status < 400)
    (hbody1 : r1.body = some d) :
    fetchedOf (fetch_noaa_data w [(key, Target.alternates (pre ++ ak :: post))] category ts)
      = [(key, d)]
    ∧ writtenOf (fetch_noaa_data w [(key, Target.alternates (pre ++ ak :: post))] category ts)
      = [snapshotName category key ts]
    ∧ ∀ a ∈ post, ∀ q ∈ traceOf
        (fetch_noaa_data w [(key, Target.alternates (pre ++ ak :: post))] category ts),
        q.url ≠ NOAA_BASE_URL ++ a := by
  have hmap : (pre ++ ak :: post).map (fun a => NOAA_BASE_URL ++ a) =
      pre.map (fun a => NOAA_BASE_URL ++ a) ++
        (NOAA_BASE_URL ++ ak) :: post.map (fun a => NOAA_BASE_URL ++ a) := by
    simp
  rw [hmap] at hnd
  obtain ⟨hnd1, hnd2, hdisj⟩ := List.nodup_append.mp hnd
  have huak_post : (NOAA_BASE_URL ++ ak) ∉ post.map (fun a => NOAA_BASE_URL ++ a) :=
    (List.nodup_cons.mp hnd2).1
  have huak_pre : ∀ a ∈ pre, NOAA_BASE_URL ++ ak ≠ NOAA_BASE_URL ++ a := by
    intro a ha hcontra
    have hmem : (NOAA_BASE_URL ++ ak) ∈ pre.map (fun a => NOAA_BASE_URL ++ a) := by
      rw [hcontra]
      exact List.mem_map_of_mem _ ha
    exact hdisj hmem (List.mem_cons_self _ _)
  obtain ⟨s', hskip, hcounts, ext1, hext1, hext1q⟩ :=
    tryAlternates_skip_failed w pre (ak :: post) NetState.init hpre
  have hcu : s'.counts (NOAA_BASE_URL ++ ak) = 0 := hcounts _ huak_pre
  have hg0 : retryingGet w (NOAA_BASE_URL ++ ak) s' =
      (some r0, bumpState s' Method.GET (NOAA_BASE_URL ++ ak)) :=
    retryingGet_hit w _ s' r0 (by rw [hcu]; exact h0) (statusForcelist_not_ok hst0)
  have htry : tryAlternates w (pre ++ ak :: post) NetState.init =
      (some (NOAA_BASE_URL ++ ak), bumpState s' Method.GET (NOAA_BASE_URL ++ ak)) := by
    rw [hskip, tryAlternates, hg0]
    simp [hst0]
  have hc1 : (bumpState s' Method.GET (NOAA_BASE_URL ++ ak)).counts (NOAA_BASE_URL ++ ak) = 1 := by
    rw [bumpState_counts_eq, hcu]
  have hg1 : retryingGet w (NOAA_BASE_URL ++ ak) (bumpState s' Method.GET (NOAA_BASE_URL ++ ak)) =
      (some r1, bumpState (bumpState s' Method.GET (NOAA_BASE_URL ++ ak))
        Method.GET (NOAA_BASE_URL ++ ak)) :=
    retryingGet_hit w _ _ r1 (by rw [hc1]; exact h1) (statusForcelist_not_ok hst1)
  have hrun : fetch_noaa_data w [(key, Target.alternates (pre ++ ak :: post))] category ts =
      Except.ok ⟨[(key, d)], [snapshotName category key ts],
        bumpState (bumpState s' Method.GET (NOAA_BASE_URL ++ ak))
          Method.GET (NOAA_BASE_URL ++ ak)⟩ := by
    rw [fetch_noaa_data, fetchGo, htry]
    show fetchGo w category ts [] (processUrl w category ts key (NOAA_BASE_URL ++ ak)
        ⟨[], [], bumpState s' Method.GET (NOAA_BASE_URL ++ ak)⟩) = _
    have hp : processUrl w category ts key (NOAA_BASE_URL ++ ak)
        ⟨[], [], bumpState s' Method.GET (NOAA_BASE_URL ++ ak)⟩ =
        ⟨[(key, d)], [snapshotName category key ts],
          bumpState (bumpState s' Method.GET (NOAA_BASE_URL ++ ak))
            Method.GET (NOAA_BASE_URL ++ ak)⟩ := by
      simp [processUrl, fetchCommon, hg1, hst1, hbody1]
    rw [hp]
    rfl
  refine ⟨by simp [hrun, fetchedOf], by simp [hrun, writtenOf], ?_⟩
  intro a ha q hq hqa
  have hane : NOAA_BASE_URL ++ a ≠ NOAA_BASE_URL ++ ak := by
    intro hcontra
    rw [← hcontra] at huak_post
    exact huak_post (List.mem_map_of_mem _ ha)
  have hapre : ∀ a' ∈ pre, NOAA_BASE_URL ++ a ≠ NOAA_BASE_URL ++ a' := by
    intro a' ha' hcontra
    have hmem1 : (NOAA_BASE_URL ++ a) ∈ pre.map (fun x => NOAA_BASE_URL ++ x) := by
      rw [hcontra]
      exact List.mem_map_of_mem _ ha'
    have hmem2 : (NOAA_BASE_URL ++ a) ∈
        (NOAA_BASE_URL ++ ak) :: post.map (fun x => NOAA_BASE_URL ++ x) :=
      List.mem_cons_of_mem _ (List.mem_map_of_mem _ ha)
    exact hdisj hmem1 hmem2
  rw [hrun] at hq
  simp only [traceOf] at hq
  rw [bumpState_trace, bumpState_trace, hext1] at hq
  simp only [NetState.init, List.nil_append, List.append_assoc, List.mem_append] at hq
  rcases hq with hq1 | hq2
  · obtain ⟨a', ha', hqa'⟩ := hext1q q hq1
    rw [hqa'] at hqa
    exact hapre a' ha' (Eq.symm hqa)
  · simp only [List.mem_append, List.mem_singleton] at hq2
    rcases hq2 with hq2 | hq2 <;> rw [hq2] at hqa <;> exact hane (Eq.symm hqa)

/-- Witness for C1 on `worldC1`: alternate `a.json` is unreachable,
`b.json` serves document 7, `c.json` is never contacted. -/
theorem C1_first_successful_alternate_wins_witness :
    fetchedOf (fetch_noaa_data worldC1
        [("k", Target.alternates (["a.json"] ++ "b.json" :: ["c.json"]))] "primary" "20250101000000")
      = [("k", JsonDoc.doc 7)]
    ∧ writtenOf (fetch_noaa_data worldC1
        [("k", Target.alternates (["a.json"] ++ "b.json" :: ["c.json"]))] "primary" "20250101000000")
      = [snapshotName "primary" "k" "20250101000000"]
    ∧ ∀ a ∈ ["c.json"], ∀ q ∈ traceOf
        (fetch_noaa_data worldC1
          [("k", Target.alternates (["a.json"] ++ "b.json" :: ["c.json"]))] "primary" "20250101000000"),
        q.url ≠ NOAA_BASE_URL ++ a :=
  C1_first_successful_alternate_wins worldC1 "k" "primary" "20250101000000" "b.json"
    ["a.json"] ["c.json"] ⟨200, some (JsonDoc.doc 7), []⟩ ⟨200, some (JsonDoc.doc 7), []⟩
    (JsonDoc.doc 7)
    (by intro a ha; simp only [List.mem_singleton] at ha; subst ha; decide)
    (by decide) rfl (by decide) rfl (by decide) rfl

/-!
Grouping-dict lemmas.
-/

theorem addToCategory_find_same_some (groups : List (String × List CacheFile))
    (c : String) (f : CacheFile) (g : List CacheFile) (h : assocFind c groups = some g) :
    assocFind c (addToCategory groups c f) = some (g ++ [f]) := by
  induction groups with
  | nil => simp [assocFind] at h
  | cons e rest ih =>
    obtain ⟨c', g'⟩ := e
    by_cases hc : c' = c
    · subst hc
      simp only [assocFind, if_pos rfl] at h
      cases h
      simp [addToCategory, assocFind]
    · simp only [assocFind, if_neg hc] at h
      simp only [addToCategory, if_neg hc, assocFind]
      exact ih h

theorem addToCategory_find_same_none (groups : List (String × List CacheFile))
    (c : String) (f : CacheFile) (h : assocFind c groups = none) :
    assocFind c (addToCategory groups c f) = some [f] := by
  induction groups with
  | nil => simp [addToCategory, assocFind]
  | cons e rest ih =>
    obtain ⟨c', g'⟩ := e
    by_cases hc : c' = c
    · subst hc
      simp [assocFind] at h
    · simp only [assocFind, if_neg hc] at h
      simp only [addToCategory, if_neg hc, assocFind]
      exact ih h

theorem addToCategory_find_ne (groups : List (String × List CacheFile))
    (c c' : String) (f : CacheFile) (h : c' ≠ c) :
    assocFind c' (addToCategory groups c f) = assocFind c' groups := by
  induction groups with
  | nil =>
    simp only [addToCategory, assocFind]
    rw [if_neg (fun hh => h hh.symm)]
  | cons e rest ih =>
    obtain ⟨c0, g0⟩ := e
    by_cases hc : c0 = c
    · subst hc
      simp only [addToCategory, if_pos rfl, assocFind]
      rw [if_neg (fun hh => h hh.symm), if_neg (fun hh => h hh.symm)]
    · simp only [addToCategory, if_neg hc, assocFind]
      by_cases hc' : c0 = c'
      · rw [if_pos hc', if_pos hc']
      · rw [if_neg hc', if_neg hc']
        exact ih

theorem mem_of_assocFind_some {β : Type} (groups : List (String × β)) (c : String) (v : β)
    (h : assocFind c groups = some v) : (c, v) ∈ groups := by
  induction groups with
  | nil => simp [assocFind] at h
  | cons e rest ih =>
    obtain ⟨c', v'⟩ := e
    by_cases hc : c' = c
    · subst hc
      simp only [assocFind, if_pos rfl] at h
      cases h
      exact List.mem_cons_self _ _
    · simp only [assocFind, if_neg hc] at h
      exact List.mem_cons_of_mem _ (ih h)

theorem assocFind_of_mem_nodup {β : Type} (groups : List (String × β)) (c : String) (v : β)
    (hnd : (groups.map Prod.fst).Nodup) (h : (c, v) ∈ groups) :
    assocFind c groups = some v := by
  induction groups with
  | nil => simp at h
  | cons e rest ih =>
    obtain ⟨c', v'⟩ := e
    simp only [List.map_cons, List.nodup_cons] at hnd
    rcases List.mem_cons.mp h with heq | hmem
    · cases heq
      simp [assocFind]
    · have hne : c' ≠ c := by
        intro hcc
        subst hcc
        exact hnd.1 (List.mem_map_of_mem Prod.fst hmem)
      simp only [assocFind, if_neg hne]
      exact ih hnd.2 hmem

theorem addToCategory_keys_sub (groups : List (String × List CacheFile)) (c : String)
    (f : CacheFile) (x : String) (h : x ∈ (addToCategory groups c f).map Prod.fst) :
    x ∈ groups.map Prod.fst ∨ x = c := by
  induction groups with
  | nil =>
    simp only [addToCategory, List.map_cons, List.map_nil, List.mem_singleton] at h
    exact Or.inr h
  | cons e rest ih =>
    obtain ⟨c', g'⟩ := e
    by_cases hc : c' = c
    · subst hc
      simp only [addToCategory, if_pos rfl, ite_true, List.map_cons, List.mem_cons] at h ⊢
      tauto
    · simp only [addToCategory, if_neg hc, List.map_cons, List.mem_cons] at h ⊢
      rcases h with h | h
      · exact Or.inl (Or.inl h)
      · rcases ih h with h2 | h2
        · exact Or.inl (Or.inr h2)
        · exact Or.inr h2

theorem addToCategory_keys_nodup (groups : List (String × List CacheFile)) (c : String)
    (f : CacheFile) (hnd : (groups.map Prod.fst).Nodup) :
    ((addToCategory groups c f).map Prod.fst).Nodup := by
  induction groups with
  | nil => simp [addToCategory]
  | cons e rest ih =>
    obtain ⟨c', g'⟩ := e
    simp only [List.map_cons, List.nodup_cons] at hnd
    by_cases hc : c' = c
    · subst hc
      simp only [addToCategory, if_pos rfl, ite_true, List.map_cons, List.nodup_cons]
      exact hnd
    · simp only [addToCategory, if_neg hc, List.map_cons, List.nodup_cons]
      refine ⟨?_, ih hnd.2⟩
      intro hmem
      rcases addToCategory_keys_sub rest c f c' hmem with h2 | h2
      · exact hnd.1 h2
      · exact hc h2

theorem buildStep_keys_nodup (acc : List (String × List CacheFile)) (f : CacheFile)
    (hnd : (acc.map Prod.fst).Nodup) : ((buildStep acc f).map Prod.fst).Nodup := by
  by_cases he : (isJsonName f.name && hasCategory f.name) = true
  · rw [buildStep, if_pos he]
    exact addToCategory_keys_nodup acc (categoryOf f.name) f hnd
  · rw [buildStep, if_neg he]
    exact hnd

theorem buildGroups_keys_nodup (files : List CacheFile) :
    ((buildGroups files).map Prod.fst).Nodup := by
  have h : ∀ (l : List CacheFile) (acc : List (String × List CacheFile)),
      (acc.map Prod.fst).Nodup → ((l.foldl buildStep acc).map Prod.fst).Nodup := by
    intro l
    induction l with
    | nil => intro acc h; exact h
    | cons f l ih =>
      intro acc h
      rw [List.foldl_cons]
      exact ih _ (buildStep_keys_nodup acc f h)
  exact h files [] (by simp)

theorem buildGroups_foldl_some (files : List CacheFile) :
    ∀ (acc : List (String × List CacheFile)) (c : String) (g0 : List CacheFile),
      assocFind c acc = some g0 →
      assocFind c (files.foldl buildStep acc) = some (g0 ++ files.filter (inCategoryGroup c)) := by
  induction files with
  | nil =>
    intro acc c g0 h
    simpa using h
  | cons f files ih =>
    intro acc c g0 h
    rw [List.foldl_cons]
    by_cases he : (isJsonName f.name && hasCategory f.name) = true
    · by_cases hc : categoryOf f.name = c
      · have hstep : buildStep acc f = addToCategory acc c f := by
          rw [buildStep, if_pos he, hc]
        have hpred : inCategoryGroup c f = true := by
          simp only [inCategoryGroup, Bool.and_eq_true] at he ⊢
          exact ⟨he, by simp [hc]⟩
        rw [hstep, ih _ c (g0 ++ [f]) (addToCategory_find_same_some acc c f g0 h),
          List.filter_cons_of_pos hpred]
        simp
      · have hstep : buildStep acc f = addToCategory acc (categoryOf f.name) f := by
          rw [buildStep, if_pos he]
        have hpred : ¬ inCategoryGroup c f = true := by
          simp only [inCategoryGroup, Bool.and_eq_true, beq_iff_eq]
          tauto
        have hfind : assocFind c (addToCategory acc (categoryOf f.name) f) = some g0 := by
          rw [addToCategory_find_ne acc (categoryOf f.name) c f (fun hh => hc hh.symm)]
          exact h
        rw [hstep, ih _ c g0 hfind, List.filter_cons_of_neg hpred]
    · have hstep : buildStep acc f = acc := by
        rw [buildStep, if_neg he]
      have hpred : ¬ inCategoryGroup c f = true := by
        simp only [inCategoryGroup, Bool.and_eq_true, beq_iff_eq] at he ⊢
        tauto
      rw [hstep, ih _ c g0 h, List.filter_cons_of_neg hpred]

theorem buildGroups_foldl_none (files : List CacheFile) :
    ∀ (acc : List (String × List CacheFile)) (c : String),
      assocFind c acc = none →
      assocFind c (files.foldl buildStep acc) =
        if files.filter (inCategoryGroup c) = [] then none
        else some (files.filter (inCategoryGroup c)) := by
  induction files with
  | nil =>
    intro acc c h
    simpa using h
  | cons f files ih =>
    intro acc c h
    rw [List.foldl_cons]
    by_cases he : (isJsonName f.name && hasCategory f.name) = true
    · by_cases hc : categoryOf f.name = c
      · have hstep : buildStep acc f = addToCategory acc c f := by
          rw [buildStep, if_pos he, hc]
        have hpred : inCategoryGroup c f = true := by
          simp only [inCategoryGroup, Bool.and_eq_true] at he ⊢
          exact ⟨he, by simp [hc]⟩
        rw [hstep,
          buildGroups_foldl_some files _ c [f] (addToCategory_find_same_none acc c f h),
          List.filter_cons_of_pos hpred]
        simp
      · have hstep : buildStep acc f = addToCategory acc (categoryOf f.name) f := by
          rw [buildStep, if_pos he]
        have hpred : ¬ inCategoryGroup c f = true := by
          simp only [inCategoryGroup, Bool.and_eq_true, beq_iff_eq]
          tauto
        have hfind : assocFind c (addToCategory acc (categoryOf f.name) f) = none := by
          rw [addToCategory_find_ne acc (categoryOf f.name) c f (fun hh => hc hh.symm)]
          exact h
        rw [hstep, ih _ c hfind, List.filter_cons_of_neg hpred]
    · have hstep : buildStep acc f = acc := by
        rw [buildStep, if_neg he]
      have hpred : ¬ inCategoryGroup c f = true := by
        simp only [inCategoryGroup, Bool.and_eq_true, beq_iff_eq] at he ⊢
        tauto
      rw [hstep, ih _ c h, List.filter_cons_of_neg hpred]

theorem buildGroups_find (files : List CacheFile) (c : String) :
    assocFind c (buildGroups files) =
      if files.filter (inCategoryGroup c) = [] then none
      else some (files.filter (inCategoryGroup c)) :=
  buildGroups_foldl_none files [] c rfl

theorem mem_buildGroups_eq (files : List CacheFile) (c : String) (g : List CacheFile)
    (h : (c, g) ∈ buildGroups files) :
    g = files.filter (inCategoryGroup c) ∧ g ≠ [] := by
  have hfind := assocFind_of_mem_nodup (buildGroups files) c g (buildGroups_keys_nodup files) h
  rw [buildGroups_find] at hfind
  by_cases hf : files.filter (inCategoryGroup c) = []
  · rw [if_pos hf] at hfind
    cases hfind
  · rw [if_neg hf] at hfind
    cases hfind
    exact ⟨rfl, hf⟩

theorem buildGroups_mem_of_filter_ne (files : List CacheFile) (c : String)
    (h : files.filter (inCategoryGroup c) ≠ []) :
    (c, files.filter (inCategoryGroup c)) ∈ buildGroups files := by
  apply mem_of_assocFind_some
  rw [buildGroups_find, if_neg h]

/-!
Sorting and marking lemmas.
-/

theorem insertDesc_perm (f : CacheFile) :
    ∀ l : List CacheFile, List.Perm (insertDesc f l) (f :: l) := by
  intro l
  induction l with
  | nil => simp [insertDesc]
  | cons g rest ih =>
    rw [insertDesc]
    by_cases h : g.mtime ≤ f.mtime
    · rw [if_pos h]
    · rw [if_neg h]
      exact List.Perm.trans (List.Perm.cons g ih) (List.Perm.swap f g rest)

theorem sortDesc_perm : ∀ l : List CacheFile, List.Perm (sortDesc l) l := by
  intro l
  induction l with
  | nil => simp [sortDesc]
  | cons f rest ih =>
    rw [sortDesc]
    exact (insertDesc_perm f (sortDesc rest)).trans (List.Perm.cons f ih)

theorem insertDesc_pairwise (f : CacheFile) :
    ∀ l : List CacheFile, l.Pairwise (fun a b => b.mtime ≤ a.mtime) →
      (insertDesc f l).Pairwise (fun a b => b.mtime ≤ a.mtime) := by
  intro l
  induction l with
  | nil => intro _; simp [insertDesc]
  | cons g rest ih =>
    intro hp
    rw [List.pairwise_cons] at hp
    rw [insertDesc]
    by_cases h : g.mtime ≤ f.mtime
    · rw [if_pos h]
      rw [List.pairwise_cons]
      constructor
      · intro x hx
        rcases List.mem_cons.mp hx with rfl | hx2
        · exact h
        · exact le_trans (hp.1 x hx2) h
      · rw [List.pairwise_cons]
        exact hp
    · rw [if_neg h]
      rw [List.pairwise_cons]
      refine ⟨?_, ih hp.2⟩
      intro x hx
      have hx2 := (insertDesc_perm f rest).mem_iff.mp hx
      rcases List.mem_cons.mp hx2 with rfl | hx3
      · exact le_of_not_le h
      · exact hp.1 x hx3

theorem sortDesc_pairwise : ∀ l : List CacheFile,
    (sortDesc l).Pairwise (fun a b => b.mtime ≤ a.mtime) := by
  intro l
  induction l with
  | nil => simp [sortDesc]
  | cons f rest ih =>
    rw [sortDesc]
    exact insertDesc_pairwise f (sortDesc rest) ih

theorem dedupAppend_mono (l : List CacheFile) :
    ∀ (acc : List String) (x : String), x ∈ acc → x ∈ dedupAppend l acc := by
  induction l with
  | nil => intro acc x h; exact h
  | cons f l ih =>
    intro acc x h
    rw [dedupAppend, List.foldl_cons]
    by_cases hf : f.name ∈ acc
    · rw [if_pos hf]
      exact ih acc x h
    · rw [if_neg hf]
      exact ih _ x (List.mem_append_left _ h)

theorem dedupAppend_complete (l : List CacheFile) :
    ∀ (acc : List String) (f : CacheFile), f ∈ l → f.name ∈ dedupAppend l acc := by
  induction l with
  | nil => intro acc f h; simp at h
  | cons g l ih =>
    intro acc f h
    rw [dedupAppend, List.foldl_cons]
    rcases List.mem_cons.mp h with rfl | h2
    · by_cases hg : f.name ∈ acc
      · rw [if_pos hg]
        exact dedupAppend_mono l acc f.name hg
      · rw [if_neg hg]
        exact dedupAppend_mono l _ f.name (List.mem_append_right _ (List.mem_singleton.mpr rfl))
    · by_cases hg : g.name ∈ acc
      · rw [if_pos hg]
        exact ih acc f h2
      · rw [if_neg hg]
        exact ih _ f h2

theorem dedupAppend_sound (l : List CacheFile) :
    ∀ (acc : List String) (x : String), x ∈ dedupAppend l acc →
      x ∈ acc ∨ ∃ f ∈ l, f.name = x := by
  induction l with
  | nil => intro acc x h; exact Or.inl h
  | cons g l ih =>
    intro acc x h
    rw [dedupAppend, List.foldl_cons] at h
    by_cases hg : g.name ∈ acc
    · rw [if_pos hg] at h
      rcases ih acc x h with h2 | ⟨f, hf, hfx⟩
      · exact Or.inl h2
      · exact Or.inr ⟨f, List.mem_cons_of_mem g hf, hfx⟩
    · rw [if_neg hg] at h
      rcases ih _ x h with h2 | ⟨f, hf, hfx⟩
      · rcases List.mem_append.mp h2 with h3 | h3
        · exact Or.inl h3
        · exact Or.inr ⟨g, List.mem_cons_self g l, (List.mem_singleton.mp h3).symm⟩
      · exact Or.inr ⟨f, List.mem_cons_of_mem g hf, hfx⟩

theorem countMarked_mono (groups : List (String × List CacheFile)) (maxN : Nat) :
    ∀ (init : List String) (x : String), x ∈ init → x ∈ countMarked groups maxN init := by
  induction groups with
  | nil => intro init x h; exact h
  | cons cg groups ih =>
    intro init x h
    rw [countMarked, List.foldl_cons]
    exact ih _ x (dedupAppend_mono _ init x h)

theorem countMarked_complete (groups : List (String × List CacheFile)) (maxN : Nat) :
    ∀ (init : List String) (c : String) (g : List CacheFile) (f : CacheFile),
      (c, g) ∈ groups → f ∈ (sortDesc g).drop maxN →
      f.name ∈ countMarked groups maxN init := by
  induction groups with
  | nil => intro init c g f h _; simp at h
  | cons cg groups ih =>
    intro init c g f h hf
    rw [countMarked, List.foldl_cons]
    rcases List.mem_cons.mp h with rfl | h2
    · exact countMarked_mono groups maxN _ f.name (dedupAppend_complete _ init f hf)
    · exact ih _ c g f h2 hf

theorem countMarked_sound (groups : List (String × List CacheFile)) (maxN : Nat) :
    ∀ (init : List String) (x : String), x ∈ countMarked groups maxN init →
      x ∈ init ∨ ∃ c g, (c, g) ∈ groups ∧ ∃ f ∈ (sortDesc g).drop maxN, f.name = x := by
  induction groups with
  | nil => intro init x h; exact Or.inl h
  | cons cg groups ih =>
    intro init x h
    rw [countMarked, List.foldl_cons] at h
    rcases ih _ x h with h2 | ⟨c, g, hcg, f, hf, hfx⟩
    · rcases dedupAppend_sound _ init x h2 with h3 | ⟨f, hf, hfx⟩
      · exact Or.inl h3
      · exact Or.inr ⟨cg.1, cg.2, by simp, f, hf, hfx⟩
    · exact Or.inr ⟨c, g, List.mem_cons_of_mem cg hcg, f, hf, hfx⟩

/-- Membership in the final deletion set. -/
theorem mem_filesToDelete (files : List CacheFile) (cutoff : Int) (maxN : Nat) (x : String) :
    x ∈ filesToDelete files cutoff maxN ↔
      x ∈ ageMarked files cutoff
      ∨ ∃ c g, (c, g) ∈ buildGroups files ∧ ∃ f ∈ (sortDesc g).drop maxN, f.name = x := by
  constructor
  · intro h
    exact countMarked_sound (buildGroups files) maxN _ x h
  · intro h
    rcases h with h | ⟨c, g, hcg, f, hf, hfx⟩
    · exact countMarked_mono (buildGroups files) maxN _ x h
    · rw [← hfx]
      exact countMarked_complete (buildGroups files) maxN _ c g f hcg hf

/-- Claim C4: every `.json` file in the listing older than the cutoff is in
the deletion set — no hypothesis about its category's size or about its
name parsing into a category at all. -/
theorem C4_age_rule (files : List CacheFile) (now : Int) (maxAge maxN : Nat) (f : CacheFile)
    (hf : f ∈ files) (hjson : isJsonName f.name = true)
    (hold : f.mtime < ageCutoff now maxAge) :
    f.name ∈ cleanup_old_files files now maxAge maxN := by
  apply (mem_filesToDelete files (ageCutoff now maxAge) maxN f.name).mpr
  left
  simp only [ageMarked, List.mem_map, List.mem_filter]
  exact ⟨f, ⟨hf, by simp [hjson, hold]⟩, rfl⟩

/-- Witness for C4: an old uncategorizable file (`a.json`, one underscore
token) is deleted for age. -/
theorem C4_age_rule_witness :
    (⟨"a.json", 0⟩ : CacheFile) ∈ [(⟨"a.json", 0⟩ : CacheFile)]
    ∧ isJsonName "a.json" = true
    ∧ ((⟨"a.json", 0⟩ : CacheFile).mtime < ageCutoff 100000 24)
    ∧ "a.json" ∈ cleanup_old_files [⟨"a.json", 0⟩] 100000 24 5 :=
  ⟨by decide, by decide, by decide,
    C4_age_rule [⟨"a.json", 0⟩] 100000 24 5 ⟨"a.json", 0⟩ (by decide) (by decide) (by decide)⟩

/-- Claim C9: a `.json` file whose name has fewer than three underscore
tokens is never placed in any category group, and it is deleted exactly
when it is older than the age cutoff — the per-category count rule can
never touch it. -/
theorem C9_uncategorized_age_only (files : List CacheFile) (now : Int) (maxAge maxN : Nat)
    (f : CacheFile)
    (hnd : (files.map (fun g => g.name)).Nodup)
    (hf : f ∈ files) (hjson : isJsonName f.name = true)
    (hparts : (nameParts f.name).length < 3) :
    (∀ c g, (c, g) ∈ buildGroups files → f ∉ g)
    ∧ (f.name ∈ cleanup_old_files files now maxAge maxN ↔ f.mtime < ageCutoff now maxAge) := by
  have hnotcat : ¬ hasCategory f.name = true := by
    simp only [hasCategory, decide_eq_true_eq]
    omega
  have hgroup : ∀ c g, (c, g) ∈ buildGroups files → f ∉ g := by
    intro c g hcg hfg
    obtain ⟨hgeq, _⟩ := mem_buildGroups_eq files c g hcg
    rw [hgeq] at hfg
    have hcond := (List.mem_filter.mp hfg).2
    simp only [inCategoryGroup, Bool.and_eq_true] at hcond
    exact hnotcat hcond.1.2
  refine ⟨hgroup, ?_, ?_⟩
  · intro hmem
    rcases (mem_filesToDelete files (ageCutoff now maxAge) maxN f.name).mp hmem with
      hage | ⟨c, g, hcg, f', hf', hfx⟩
    · simp only [ageMarked, List.mem_map, List.mem_filter] at hage
      obtain ⟨f2, ⟨hmem2, hcond⟩, hname⟩ := hage
      have hef : f2 = f := List.inj_on_of_nodup_map hnd hmem2 hf hname
      subst hef
      simp only [Bool.and_eq_true, decide_eq_true_eq] at hcond
      exact hcond.2
    · have hfg2 : f' ∈ g := (sortDesc_perm g).mem_iff.mp (List.mem_of_mem_drop hf')
      obtain ⟨hgeq, _⟩ := mem_buildGroups_eq files c g hcg
      rw [hgeq] at hfg2
      have hcond := (List.mem_filter.mp hfg2).2
      simp only [inCategoryGroup, Bool.and_eq_true] at hcond
      have hpf : (nameParts f'.name).length = (nameParts f.name).length := by rw [hfx]
      have := hcond.1.2
      simp only [hasCategory, decide_eq_true_eq] at this
      omega
  · intro hold
    apply (mem_filesToDelete files (ageCutoff now maxAge) maxN f.name).mpr
    left
    simp only [ageMarked, List.mem_map, List.mem_filter]
    exact ⟨f, ⟨hf, by simp [hjson, hold]⟩, rfl⟩

/-- Witness for C9: a young uncategorizable file is neither grouped nor
deleted. -/
theorem C9_uncategorized_age_only_witness :
    ([(⟨"a.json", 50000⟩ : CacheFile)].map (fun g => g.name)).Nodup
    ∧ (⟨"a.json", 50000⟩ : CacheFile) ∈ [(⟨"a.json", 50000⟩ : CacheFile)]
    ∧ isJsonName "a.json" = true
    ∧ (nameParts "a.json").length < 3
    ∧ ((∀ c g, (c, g) ∈ buildGroups [(⟨"a.json", 50000⟩ : CacheFile)] → (⟨"a.json", 50000⟩ : CacheFile) ∉ g)
      ∧ ("a.json" ∈ cleanup_old_files [⟨"a.json", 50000⟩] 100000 24 5 ↔
          (⟨"a.json", 50000⟩ : CacheFile).mtime < ageCutoff 100000 24)) :=
  ⟨by decide, by decide, by decide, by decide,
    C9_uncategorized_age_only [⟨"a.json", 50000⟩] 100000 24 5 ⟨"a.json", 50000⟩
      (by decide) (by decide) (by decide) (by decide)⟩

/-- In a duplicate-free list split as `T ++ D`, filtering for membership in
`D` keeps exactly `D`. -/
theorem nodup_append_filter_mem_right (T D : List CacheFile) (h : (T ++ D).Nodup) :
    ((T ++ D).filter (fun x => decide (x ∈ D))).length = D.length := by
  rw [List.filter_append]
  have hT : T.filter (fun x => decide (x ∈ D)) = [] := by
    rw [List.filter_eq_nil_iff]
    intro x hx
    simp only [decide_eq_true_eq]
    exact List.disjoint_of_nodup_append h hx
  have hD : D.filter (fun x => decide (x ∈ D)) = D :=
    List.filter_eq_self.mpr (fun x hx => by simpa using hx)
  rw [hT, hD]
  simp

/-- Claim C5: in a category group of `M` files, all young (inside the age
window) with pairwise distinct modification times and `M` exceeding the
per-category cap, exactly `M - maxN` of the group's files are deleted, and
every survivor is strictly newer than every deleted group member (so the
survivors are exactly the `maxN` most recently modified). -/
theorem C5_count_rule (files : List CacheFile) (now : Int) (maxAge maxN : Nat) (c : String)
    (hnd : (files.map (fun g => g.name)).Nodup)
    (hyoung : ∀ f ∈ files.filter (inCategoryGroup c), ¬ f.mtime < ageCutoff now maxAge)
    (hM : maxN < (files.filter (inCategoryGroup c)).length)
    (hdist : (files.filter (inCategoryGroup c)).Pairwise (fun a b => a.mtime ≠ b.mtime)) :
    ((files.filter (inCategoryGroup c)).filter
        (fun f => decide (f.name ∈ cleanup_old_files files now maxAge maxN))).length
      = (files.filter (inCategoryGroup c)).length - maxN
    ∧ ∀ s ∈ files.filter (inCategoryGroup c),
        s.name ∉ cleanup_old_files files now maxAge maxN →
        ∀ d ∈ files.filter (inCategoryGroup c),
          d.name ∈ cleanup_old_files files now maxAge maxN →
          d.mtime < s.mtime := by
  have hgne : files.filter (inCategoryGroup c) ≠ [] := by
    intro h
    rw [h] at hM
    simp at hM
  have hcg : (c, files.filter (inCategoryGroup c)) ∈ buildGroups files :=
    buildGroups_mem_of_filter_ne files c hgne
  have hperm : List.Perm (sortDesc (files.filter (inCategoryGroup c)))
      (files.filter (inCategoryGroup c)) := sortDesc_perm _
  have hsplit : (sortDesc (files.filter (inCategoryGroup c))).take maxN ++
      (sortDesc (files.filter (inCategoryGroup c))).drop maxN =
      sortDesc (files.filter (inCategoryGroup c)) :=
    List.take_append_drop maxN _
  have hlen : (sortDesc (files.filter (inCategoryGroup c))).length =
      (files.filter (inCategoryGroup c)).length := hperm.length_eq
  have hfilesnd : files.Nodup := List.Nodup.of_map _ hnd
  have hgnodup : (files.filter (inCategoryGroup c)).Nodup := hfilesnd.filter _
  have hsortnodup : (sortDesc (files.filter (inCategoryGroup c))).Nodup :=
    hperm.nodup_iff.mpr hgnodup
  have hiff : ∀ f ∈ files.filter (inCategoryGroup c),
      (f.name ∈ cleanup_old_files files now maxAge maxN ↔
        f ∈ (sortDesc (files.filter (inCategoryGroup c))).drop maxN) := by
    intro f hfg
    constructor
    · intro hmem
      rcases (mem_filesToDelete files (ageCutoff now maxAge) maxN f.name).mp hmem with
        hage | ⟨c', g', hcg', f', hf', hfx⟩
      · simp only [ageMarked, List.mem_map, List.mem_filter] at hage
        obtain ⟨f2, ⟨hm2, hcond⟩, hname⟩ := hage
        have hef : f2 = f :=
          List.inj_on_of_nodup_map hnd hm2 (List.mem_filter.mp hfg).1 hname
        subst hef
        simp only [Bool.and_eq_true, decide_eq_true_eq] at hcond
        exact absurd hcond.2 (hyoung f2 hfg)
      · have hf'mem : f' ∈ g' :=
          (sortDesc_perm g').mem_iff.mp (List.mem_of_mem_drop hf')
        obtain ⟨hg'eq, _⟩ := mem_buildGroups_eq files c' g' hcg'
        have hf'files : f' ∈ files := by
          rw [hg'eq] at hf'mem
          exact (List.mem_filter.mp hf'mem).1
        have hef : f' = f :=
          List.inj_on_of_nodup_map hnd hf'files (List.mem_filter.mp hfg).1 hfx
        subst hef
        rw [hg'eq] at hf'mem
        have hcond' := (List.mem_filter.mp hf'mem).2
        have hcond := (List.mem_filter.mp hfg).2
        simp only [inCategoryGroup, Bool.and_eq_true, beq_iff_eq] at hcond hcond'
        have hcc : c' = c := hcond'.2.symm.trans hcond.2
        subst hcc
        rw [hg'eq] at hf'
        exact hf'
    · intro hdrop
      exact countMarked_complete (buildGroups files) maxN _ c _ f hcg hdrop
  constructor
  · have hcongr : (files.filter (inCategoryGroup c)).filter
        (fun f => decide (f.name ∈ cleanup_old_files files now maxAge maxN)) =
        (files.filter (inCategoryGroup c)).filter
          (fun f => decide (f ∈ (sortDesc (files.filter (inCategoryGroup c))).drop maxN)) := by
      apply List.filter_congr
      intro x hx
      simp only [decide_eq_decide]
      exact hiff x hx
    rw [hcongr]
    have hpf : List.Perm
        ((files.filter (inCategoryGroup c)).filter
          (fun f => decide (f ∈ (sortDesc (files.filter (inCategoryGroup c))).drop maxN)))
        ((sortDesc (files.filter (inCategoryGroup c))).filter
          (fun f => decide (f ∈ (sortDesc (files.filter (inCategoryGroup c))).drop maxN))) :=
      (hperm.filter _).symm
    rw [hpf.length_eq]
    have hkey := nodup_append_filter_mem_right
      ((sortDesc (files.filter (inCategoryGroup c))).take maxN)
      ((sortDesc (files.filter (inCategoryGroup c))).drop maxN)
      (by rw [hsplit]; exact hsortnodup)
    rw [hsplit] at hkey
    rw [hkey, List.length_drop, hlen]
  · intro s hs hsdel d hd hddel
    have hsdrop : s ∉ (sortDesc (files.filter (inCategoryGroup c))).drop maxN :=
      fun hcontra => hsdel ((hiff s hs).mpr hcontra)
    have hddrop : d ∈ (sortDesc (files.filter (inCategoryGroup c))).drop maxN :=
      (hiff d hd).mp hddel
    have hsmem : s ∈ sortDesc (files.filter (inCategoryGroup c)) := hperm.mem_iff.mpr hs
    have hstake : s ∈ (sortDesc (files.filter (inCategoryGroup c))).take maxN := by
      have hsmem2 : s ∈ (sortDesc (files.filter (inCategoryGroup c))).take maxN ++
          (sortDesc (files.filter (inCategoryGroup c))).drop maxN := by
        rw [hsplit]
        exact hsmem
      rcases List.mem_append.mp hsmem2 with h | h
      · exact h
      · exact absurd h hsdrop
    have hrel : ∀ a ∈ (sortDesc (files.filter (inCategoryGroup c))).take maxN,
        ∀ b ∈ (sortDesc (files.filter (inCategoryGroup c))).drop maxN, b.mtime ≤ a.mtime := by
      have hp : ((sortDesc (files.filter (inCategoryGroup c))).take maxN ++
          (sortDesc (files.filter (inCategoryGroup c))).drop maxN).Pairwise
          (fun a b => b.mtime ≤ a.mtime) := by
        rw [hsplit]
        exact sortDesc_pairwise _
      exact (List.pairwise_append.mp hp).2.2
    have hle : d.mtime ≤ s.mtime := hrel s hstake d hddrop
    have hsne : s ≠ d := by
      intro h
      rw [h] at hsdel
      exact hsdel hddel
    have hmne : s.mtime ≠ d.mtime :=
      List.Pairwise.forall (fun a b hab => hab.symm) hdist hs hd hsne
    omega

/-- Witness for C5: three young files of category `primary_k` with cap 2 —
one deletion, survivors strictly newer. -/
theorem C5_count_rule_witness :
    (([(⟨"primary_k_1.json", 100⟩ : CacheFile), ⟨"primary_k_2.json", 90⟩,
        ⟨"primary_k_3.json", 80⟩].map (fun g => g.name)).Nodup)
    ∧ (∀ f ∈ [(⟨"primary_k_1.json", 100⟩ : CacheFile), ⟨"primary_k_2.json", 90⟩,
        ⟨"primary_k_3.json", 80⟩].filter (inCategoryGroup "primary_k"),
        ¬ f.mtime < ageCutoff 86400 24)
    ∧ 2 < ([(⟨"primary_k_1.json", 100⟩ : CacheFile), ⟨"primary_k_2.json", 90⟩,
        ⟨"primary_k_3.json", 80⟩].filter (inCategoryGroup "primary_k")).length
    ∧ (([(⟨"primary_k_1.json", 100⟩ : CacheFile), ⟨"primary_k_2.json", 90⟩,
        ⟨"primary_k_3.json", 80⟩].filter (inCategoryGroup "primary_k")).filter
        (fun f => decide (f.name ∈ cleanup_old_files
          [⟨"primary_k_1.json", 100⟩, ⟨"primary_k_2.json", 90⟩,
            ⟨"primary_k_3.json", 80⟩] 86400 24 2))).length
      = ([(⟨"primary_k_1.json", 100⟩ : CacheFile), ⟨"primary_k_2.json", 90⟩,
        ⟨"primary_k_3.json", 80⟩].filter (inCategoryGroup "primary_k")).length - 2 := by
  refine ⟨by decide, by decide, by decide, ?_⟩
  exact (C5_count_rule [⟨"primary_k_1.json", 100⟩, ⟨"primary_k_2.json", 90⟩,
    ⟨"primary_k_3.json", 80⟩] 86400 24 2 "primary_k"
    (by decide) (by decide) (by decide) (by decide)).1

/-- A count sweep starting from an empty mark list marks nothing when every
group fits under the cap. -/
theorem countMarked_nil (maxN : Nat) :
    ∀ groups : List (String × List CacheFile),
      (∀ cg ∈ groups, (sortDesc cg.2).drop maxN = []) →
      countMarked groups maxN [] = [] := by
  intro groups
  induction groups with
  | nil => intro _; rfl
  | cons cg groups ih =>
    intro h
    rw [countMarked, List.foldl_cons]
    have hstep : markExtras cg.2 maxN [] = [] := by
      rw [markExtras, h cg (List.mem_cons_self cg groups)]
      rfl
    rw [hstep]
    exact ih (fun cg2 h2 => h cg2 (List.mem_cons_of_mem cg h2))

/-- Claim C6 is false as stated: the claim allows the second sweep to run
at a later clock time, but then a file that survived the first sweep can
cross the age cutoff and be deleted.  Concretely, a young `a.json`
(mtime 50000) survives a sweep at `now = 100000` (cutoff 13600), yet a
second sweep over the surviving directory at the later `now = 140000`
(cutoff 53600) removes it — one file, not zero. -/
theorem C6_counterexample :
    cleanup_old_files [⟨"a.json", 50000⟩] 100000 24 5 = []
    ∧ (100000 : Int) ≤ 140000
    ∧ cleanup_old_files (afterCleanup [⟨"a.json", 50000⟩] 100000 24 5) 140000 24 5
      = ["a.json"] := by
  refine ⟨by decide, by decide, by decide⟩

/-- Claim C6, amended: rerunning `cleanup_old_files` on the surviving
directory with the same parameters at the same clock time removes zero
files — the claim holds once the second run is at the same time, not a
later one. -/
theorem C6_second_sweep_removes_nothing (files : List CacheFile) (now : Int)
    (maxAge maxN : Nat) :
    cleanup_old_files (afterCleanup files now maxAge maxN) now maxAge maxN = [] := by
  have hageS : ageMarked (afterCleanup files now maxAge maxN) (ageCutoff now maxAge) = [] := by
    rw [ageMarked]
    have hfil : (afterCleanup files now maxAge maxN).filter
        (fun f => isJsonName f.name && decide (f.mtime < ageCutoff now maxAge)) = [] := by
      rw [List.filter_eq_nil_iff]
      intro f hf
      rw [afterCleanup] at hf
      obtain ⟨hffiles, hfsurv⟩ := List.mem_filter.mp hf
      simp only [decide_eq_true_eq] at hfsurv
      simp only [Bool.and_eq_true, decide_eq_true_eq, not_and]
      intro hjson hold
      apply hfsurv
      apply countMarked_mono (buildGroups files) maxN _ f.name
      simp only [ageMarked, List.mem_map, List.mem_filter]
      exact ⟨f, ⟨hffiles, by simp [hjson, hold]⟩, rfl⟩
    rw [hfil]
    rfl
  have hgroups : ∀ cg ∈ buildGroups (afterCleanup files now maxAge maxN),
      (sortDesc cg.2).drop maxN = [] := by
    intro cg hmem
    obtain ⟨c, g2⟩ := cg
    obtain ⟨hg2eq, hg2ne⟩ := mem_buildGroups_eq (afterCleanup files now maxAge maxN) c g2 hmem
    have hcomm : (afterCleanup files now maxAge maxN).filter (inCategoryGroup c) =
        (files.filter (inCategoryGroup c)).filter
          (fun f => decide (f.name ∉ cleanup_old_files files now maxAge maxN)) := by
      rw [afterCleanup, List.filter_filter, List.filter_filter]
      apply List.filter_congr
      intro x _
      exact Bool.and_comm _ _
    have hg1ne : files.filter (inCategoryGroup c) ≠ [] := by
      intro h
      rw [hg2eq, hcomm, h] at hg2ne
      simp at hg2ne
    have hcg1 : (c, files.filter (inCategoryGroup c)) ∈ buildGroups files :=
      buildGroups_mem_of_filter_ne files c hg1ne
    have hdropdel : ∀ f ∈ (sortDesc (files.filter (inCategoryGroup c))).drop maxN,
        f.name ∈ cleanup_old_files files now maxAge maxN := by
      intro f hf
      exact countMarked_complete (buildGroups files) maxN _ c _ f hcg1 hf
    have hlen2 : g2.length ≤ maxN := by
      rw [hg2eq, hcomm]
      have hp : List.Perm
          ((files.filter (inCategoryGroup c)).filter
            (fun f => decide (f.name ∉ cleanup_old_files files now maxAge maxN)))
          ((sortDesc (files.filter (inCategoryGroup c))).filter
            (fun f => decide (f.name ∉ cleanup_old_files files now maxAge maxN))) :=
        ((sortDesc_perm _).filter _).symm
      rw [hp.length_eq]
      conv_lhs => rw [← List.take_append_drop maxN (sortDesc (files.filter (inCategoryGroup c)))]
      rw [List.filter_append, List.length_append]
      have hdropnil : ((sortDesc (files.filter (inCategoryGroup c))).drop maxN).filter
          (fun f => decide (f.name ∉ cleanup_old_files files now maxAge maxN)) = [] := by
        rw [List.filter_eq_nil_iff]
        intro f hf
        simp only [decide_eq_true_eq, Decidable.not_not]
        exact hdropdel f hf
      rw [hdropnil]
      simp only [List.length_nil, Nat.add_zero]
      exact le_trans (List.length_filter_le _ _) (List.length_take_le _ _)
    have hsl : (sortDesc g2).length ≤ maxN := by
      rw [(sortDesc_perm g2).length_eq]
      exact hlen2
    exact List.drop_eq_nil_of_le hsl
  rw [cleanup_old_files, filesToDelete, hageS]
  exact countMarked_nil maxN _ hgroups
